import Mathlib

/-!
Shallow embedding of the flat-key-to-nested-structure form parser from
`examples/shared_models.py` and of the SQLite-backed analytics logger from
`src/analytics.py` of the pydantic-schemaforms-demo repository, together
with theorems settling the spec claims about them.

Conventions used throughout:
* Python dictionaries are association lists with insert-or-overwrite-in-place
  semantics (`dictSet`), preserving insertion order like CPython dicts.
* Python exceptions are modelled with `Except String`; the carried string
  names the Python exception class that the corresponding operation raises.
* Python string lowercase/uppercase is modelled with Lean's ASCII
  `String.toLower`/`String.toUpper`; all strings the claims mention are ASCII.
-/

/-- A path token produced by `tokenize_path`: either a name segment or a
bracketed decimal list index.  Python dict keys can be strings or ints
(`current[token] = value` is reachable with an int `token` and a dict
`current`), so dictionary entries are keyed by `Tok`, not by `String`. -/
inductive Tok where
  | name (s : String)
  | index (n : Nat)
  deriving DecidableEq, Repr

/-- A Python value appearing in the nested structure built by
`parse_nested_form_data`: a string, a bool produced by `convert_form_value`,
`None` (list padding), a dict, or a list. -/
inductive PVal where
  | vStr (s : String)
  | vBool (b : Bool)
  | vNone
  | vDict (entries : List (Tok × PVal))
  | vArr (items : List PVal)

/-- Python dict lookup `d.get(k)` on the association-list model. -/
def dictGet : List (Tok × PVal) → Tok → Option PVal
  | [], _ => none
  | (k, v) :: rest, t => if k = t then some v else dictGet rest t

/-- Python dict assignment `d[k] = v`: overwrite in place, else append. -/
def dictSet : List (Tok × PVal) → Tok → PVal → List (Tok × PVal)
  | [], t, v => [(t, v)]
  | (k, w) :: rest, t, v =>
    if k = t then (k, v) :: rest else (k, w) :: dictSet rest t v

/-- Python list assignment `l[n] = v` (for `n < len l`). -/
def listSet : List PVal → Nat → PVal → List PVal
  | [], _, _ => []
  | _ :: rest, 0, v => v :: rest
  | x :: rest, n + 1, v => x :: listSet rest n v

/-- The `while len(current) <= token: current.append(None)` loop of
`assign_nested`: pad the list with `None` until index `n` exists. -/
def padTo (items : List PVal) (n : Nat) : List PVal :=
  items ++ List.replicate (n + 1 - items.length) PVal.vNone

/-- The three characters treated specially by the tokenizer regex
`([^.\[\]]+)|\[(\d+)\]`. -/
def isSpecial (c : Char) : Bool :=
  c = '.' || c = '[' || c = ']'

/-- Decimal value of a digit string, as computed by Python `int`. -/
def digitsToNat (ds : List Char) : Nat :=
  ds.foldl (fun a c => 10 * a + (c.toNat - '0'.toNat)) 0

/-- ASCII lowercase of one character, as in Python `str.lower` on ASCII. -/
def charLower (c : Char) : Char :=
  if 'A' ≤ c ∧ c ≤ 'Z' then Char.ofNat (c.toNat + 32) else c

/-- ASCII uppercase of one character, as in Python `str.upper` on ASCII. -/
def charUpper (c : Char) : Char :=
  if 'a' ≤ c ∧ c ≤ 'z' then Char.ofNat (c.toNat - 32) else c

/-- Model of Python `str.lower` (ASCII). -/
def strLower (s : String) : String :=
  String.mk (s.toList.map charLower)

/-- Model of Python `str.upper` (ASCII). -/
def strUpper (s : String) : String :=
  String.mk (s.toList.map charUpper)

/-- The decimal digit character for `d < 10`. -/
def digitChar : Nat → Char
  | 0 => '0' | 1 => '1' | 2 => '2' | 3 => '3' | 4 => '4'
  | 5 => '5' | 6 => '6' | 7 => '7' | 8 => '8' | _ => '9'

/-- Decimal rendering of a natural number, fuelled so that it reduces
structurally; `natDigits` supplies enough fuel. -/
def natDigitsAux : Nat → Nat → List Char
  | 0, _ => []
  | fuel + 1, n =>
    if n < 10 then [digitChar n]
    else natDigitsAux fuel (n / 10) ++ [digitChar (n % 10)]

/-- The standard decimal digit string of a natural number. -/
def natDigits (n : Nat) : List Char :=
  natDigitsAux (n + 1) n

theorem dropWhile_length_le {α : Type} (p : α → Bool) :
    ∀ l : List α, (l.dropWhile p).length ≤ l.length := by
  intro l
  induction l with
  | nil => simp [List.dropWhile]
  | cons x xs ih =>
    rw [List.dropWhile_cons]
    split
    · simpa using Nat.le_succ_of_le ih
    · simp

/-- One left-to-right scan of `re.findall(r'([^.\[\]]+)|\[(\d+)\]', path)`:
at each position the first alternative (a maximal run of non-special
characters) is preferred; at `[` the second alternative needs one or more
digits followed by `]`; positions where neither alternative matches are
skipped. -/
def tokenizeAux : List Char → List Tok
  | [] => []
  | c :: rest =>
    if isSpecial c then
      if c = '[' then
        let ds := rest.takeWhile Char.isDigit
        let rest2 := rest.dropWhile Char.isDigit
        if ds ≠ [] ∧ rest2.head? = some ']' then
          Tok.index (digitsToNat ds) :: tokenizeAux rest2.tail
        else
          tokenizeAux rest
      else
        tokenizeAux rest
    else
      Tok.name (String.mk ((c :: rest).takeWhile (fun d => !isSpecial d)))
        :: tokenizeAux (rest.dropWhile (fun d => !isSpecial d))
termination_by l => l.length
decreasing_by
  · simp only [List.length_cons]
    have h1 : (List.dropWhile Char.isDigit rest).length ≤ rest.length :=
      dropWhile_length_le Char.isDigit rest
    have h2 : (List.dropWhile Char.isDigit rest).tail.length ≤
        (List.dropWhile Char.isDigit rest).length := by
      cases List.dropWhile Char.isDigit rest <;> simp
    omega
  · simp only [List.length_cons]; omega
  · simp only [List.length_cons]; omega
  · simp only [List.length_cons]
    have h1 : (rest.dropWhile (fun d => !isSpecial d)).length ≤ rest.length :=
      dropWhile_length_le _ rest
    omega

/-- `tokenize_path` from `parse_nested_form_data`. -/
def tokenize_path (path : String) : List Tok :=
  tokenizeAux path.toList

/-- `convert_form_value` from `examples/shared_models.py`: boolean-looking
strings become bools, every other string is returned unchanged (no numeric
conversion). -/
def convert_form_value (value : String) : PVal :=
  let lower := strLower value
  if lower = "true" then PVal.vBool true
  else if lower = "false" then PVal.vBool false
  else if lower = "on" ∨ lower = "yes" ∨ lower = "1" then PVal.vBool true
  else if lower = "off" ∨ lower = "no" ∨ lower = "0" then PVal.vBool false
  else PVal.vStr value

/-- The fresh container `[] if isinstance(next_token, int) else {}` installed
by `assign_nested` before descending. -/
def emptyChild : List Tok → PVal
  | Tok.index _ :: _ => PVal.vArr []
  | _ => PVal.vDict []

/-- `assign_nested` from `parse_nested_form_data`.  The error strings name
the Python exception the corresponding branch raises: indexing or assigning
through a non-container raises `TypeError`; `.append` on a dict raises
`AttributeError`; reading a missing int key from a dict raises `KeyError`.
Descending into a string, bool, or `None` always ends in one of those
errors, so those containers fail immediately here. -/
def assign_nested : PVal → List Tok → PVal → Except String PVal
  | container, [], _ => Except.ok container
  | container, Tok.name s :: rest, value =>
    match container with
    | PVal.vDict es =>
      if rest = [] then
        Except.ok (PVal.vDict (dictSet es (Tok.name s) value))
      else
        let child :=
          match dictGet es (Tok.name s) with
          | none => emptyChild rest
          | some PVal.vNone => emptyChild rest
          | some c => c
        (assign_nested child rest value).map
          (fun c2 => PVal.vDict (dictSet es (Tok.name s) c2))
    | _ => Except.error "TypeError"
  | container, Tok.index n :: rest, value =>
    match container with
    | PVal.vArr items =>
      let padded := padTo items n
      if rest = [] then
        Except.ok (PVal.vArr (listSet padded n value))
      else
        let child :=
          match padded.get? n with
          | some PVal.vNone => emptyChild rest
          | some c => c
          | none => PVal.vNone
        (assign_nested child rest value).map
          (fun c2 => PVal.vArr (listSet padded n c2))
    | PVal.vDict es =>
      if es.length ≤ n then
        Except.error "AttributeError"
      else if rest = [] then
        Except.ok (PVal.vDict (dictSet es (Tok.index n) value))
      else
        match dictGet es (Tok.index n) with
        | none => Except.error "KeyError"
        | some PVal.vNone =>
          (assign_nested (emptyChild rest) rest value).map
            (fun c2 => PVal.vDict (dictSet es (Tok.index n) c2))
        | some c =>
          (assign_nested c rest value).map
            (fun c2 => PVal.vDict (dictSet es (Tok.index n) c2))
    | _ => Except.error "TypeError"

/-- The body of the `for key, value in form_data.items()` loop of
`parse_nested_form_data`. -/
def parseStep (result : List (Tok × PVal)) (kv : String × String) :
    Except String (List (Tok × PVal)) :=
  let converted := convert_form_value kv.2
  match tokenize_path kv.1 with
  | [] => Except.ok (dictSet result (Tok.name kv.1) converted)
  | [Tok.name s] => Except.ok (dictSet result (Tok.name s) converted)
  | tokens =>
    match assign_nested (PVal.vDict result) tokens converted with
    | Except.ok (PVal.vDict es) => Except.ok es
    | Except.ok _ => Except.error "TypeError"
    | Except.error e => Except.error e

/-- `parse_nested_form_data` from `examples/shared_models.py`.  Form data is
the submitted mapping in iteration order; the result is the nested dict. -/
def parse_nested_form_data (form_data : List (String × String)) :
    Except String (List (Tok × PVal)) :=
  form_data.foldlM parseStep []

/-- The characters of one non-leading path token in a flat form key:
a name segment is preceded by a dot (`.name`), an index segment is
bracketed (`[i]`), as in `pets[0].name`. -/
def renderTokChars : Tok → List Char
  | Tok.name s => '.' :: s.toList
  | Tok.index n => '[' :: (natDigits n ++ [']'])

/-- The characters of a flat form key addressing the given token path. -/
def renderPathChars : List Tok → List Char
  | [] => []
  | Tok.name s :: rest => s.toList ++ (rest.map renderTokChars).flatten
  | Tok.index n :: rest => '[' :: (natDigits n ++ [']']) ++ (rest.map renderTokChars).flatten

/-- The flat form key addressing the given token path
(`renderPath [name "pets", index 0, name "name"] = "pets[0].name"`). -/
def renderPath (toks : List Tok) : String :=
  String.mk (renderPathChars toks)

/-- A usable name segment: nonempty and free of the special characters
`.`, `[`, `]`. -/
def validNameB (s : String) : Bool :=
  !(s = "") && s.toList.all (fun c => !isSpecial c)

def validTokB : Tok → Bool
  | Tok.name s => validNameB s
  | Tok.index _ => true

/-- A well-formed flat form key path: it starts with a name segment and all
its name segments are usable. -/
def validPathB : List Tok → Bool
  | Tok.name s :: rest => validNameB s && rest.all validTokB
  | _ => false

/-- Dereference a token path in a nested structure: a name token selects a
dictionary entry and an index token selects a list position. -/
def getPath : PVal → List Tok → Option PVal
  | v, [] => some v
  | PVal.vDict es, t :: rest => (dictGet es t).bind (fun c => getPath c rest)
  | PVal.vArr items, Tok.index n :: rest => (items.get? n).bind (fun c => getPath c rest)
  | _, _ => none

/-- Result of the external `pydantic_schemaforms.validation.validate_form_data`
call: either validated data or a field-to-message error mapping. -/
inductive VResult where
  | valid (data : PVal)
  | invalid (errors : List (String × String))

/-- The response dictionary built by `handle_form_submission`; absent keys
are `none`. -/
structure SubmitResponse where
  success : Bool
  message : Option String
  data : Option PVal
  errors : Option (List (String × String))

/-- `handle_form_submission` from `examples/shared_models.py`.  The
`validator` argument models the external library call
`validate_form_data(form_class, parsed_data)` (the `form_class` is baked
into it); `Except.error` models an exception escaping from parsing or
validation, which the surrounding `try`/`except` turns into
`{'success': False, 'errors': {'form': str(e)}}`. -/
def handle_form_submission (validator : List (Tok × PVal) → Except String VResult)
    (form_data : List (String × String)) (success_message : String) : SubmitResponse :=
  match parse_nested_form_data form_data with
  | Except.error e => ⟨false, none, none, some [("form", e)]⟩
  | Except.ok parsed =>
    match validator parsed with
    | Except.error e => ⟨false, none, none, some [("form", e)]⟩
    | Except.ok (VResult.valid d) => ⟨true, some success_message, some d, none⟩
    | Except.ok (VResult.invalid errs) => ⟨false, none, none, some errs⟩

/-! ### Lemmas about the tokenizer -/

theorem takeWhile_append_of_all {p : Char → Bool} :
    ∀ xs l : List Char, (∀ c ∈ xs, p c = true) →
      (xs ++ l).takeWhile p = xs ++ l.takeWhile p := by
  intro xs
  induction xs with
  | nil => simp
  | cons x xs ih =>
    intro l h
    simp only [List.cons_append, List.takeWhile_cons, h x (by simp)]
    simp [ih l (fun c hc => h c (by simp [hc]))]

theorem dropWhile_append_of_all {p : Char → Bool} :
    ∀ xs l : List Char, (∀ c ∈ xs, p c = true) →
      (xs ++ l).dropWhile p = l.dropWhile p := by
  intro xs
  induction xs with
  | nil => simp
  | cons x xs ih =>
    intro l h
    simp only [List.cons_append, List.dropWhile_cons, h x (by simp)]
    exact ih l (fun c hc => h c (by simp [hc]))

theorem takeWhile_eq_nil_of_head {p : Char → Bool} (l : List Char)
    (h : ∀ c, l.head? = some c → p c = false) : l.takeWhile p = [] := by
  cases l with
  | nil => rfl
  | cons x xs => rw [List.takeWhile_cons, h x rfl]; rfl

theorem dropWhile_eq_self_of_head {p : Char → Bool} (l : List Char)
    (h : ∀ c, l.head? = some c → p c = false) : l.dropWhile p = l := by
  cases l with
  | nil => rfl
  | cons x xs => rw [List.dropWhile_cons, h x rfl]; rfl

/-- The list starts (if at all) with one of the special characters. -/
def headSpecial (l : List Char) : Prop :=
  ∀ c, l.head? = some c → isSpecial c = true

theorem digitChar_val {d : Nat} (h : d < 10) :
    (digitChar d).toNat - 48 = d := by
  interval_cases d <;> decide

theorem digitChar_isDigit {d : Nat} (h : d < 10) :
    Char.isDigit (digitChar d) = true := by
  interval_cases d <;> decide

theorem digitsToNat_append_singleton (xs : List Char) (c : Char) :
    digitsToNat (xs ++ [c]) = 10 * digitsToNat xs + (c.toNat - '0'.toNat) := by
  simp [digitsToNat, List.foldl_append]

theorem natDigitsAux_spec : ∀ fuel n, n < fuel →
    natDigitsAux fuel n ≠ [] ∧
    (∀ c ∈ natDigitsAux fuel n, Char.isDigit c = true) ∧
    digitsToNat (natDigitsAux fuel n) = n := by
  intro fuel
  induction fuel with
  | zero => intro n h; omega
  | succ fuel ih =>
    intro n h
    rw [natDigitsAux]
    by_cases h10 : n < 10
    · rw [if_pos h10]
      refine ⟨by simp, ?_, ?_⟩
      · intro c hc
        simp only [List.mem_singleton] at hc
        subst hc
        exact digitChar_isDigit h10
      · simp only [digitsToNat, List.foldl_cons, List.foldl_nil, Nat.mul_zero, Nat.zero_add]
        rw [show '0'.toNat = 48 from rfl]
        exact digitChar_val h10
    · rw [if_neg h10]
      have hd : n / 10 < fuel := by omega
      obtain ⟨hne, hdig, hval⟩ := ih (n / 10) hd
      have hm : n % 10 < 10 := Nat.mod_lt n (by norm_num)
      refine ⟨by simp, ?_, ?_⟩
      · intro c hc
        rcases List.mem_append.mp hc with h1 | h1
        · exact hdig c h1
        · simp only [List.mem_singleton] at h1
          subst h1
          exact digitChar_isDigit hm
      · rw [digitsToNat_append_singleton, hval, show '0'.toNat = 48 from rfl,
          digitChar_val hm]
        omega

theorem natDigits_ne_nil (n : Nat) : natDigits n ≠ [] :=
  (natDigitsAux_spec (n + 1) n (by omega)).1

theorem natDigits_isDigit (n : Nat) : ∀ c ∈ natDigits n, Char.isDigit c = true :=
  (natDigitsAux_spec (n + 1) n (by omega)).2.1

theorem digitsToNat_natDigits (n : Nat) : digitsToNat (natDigits n) = n :=
  (natDigitsAux_spec (n + 1) n (by omega)).2.2

theorem tokenizeAux_cons_special {c : Char} (hc : isSpecial c = true)
    (hb : ¬c = '[') (l : List Char) : tokenizeAux (c :: l) = tokenizeAux l := by
  rw [tokenizeAux, if_pos hc, if_neg hb]

theorem string_toList_ne_nil {s : String} (h : ¬s = "") : s.toList ≠ [] := by
  obtain ⟨data⟩ := s
  intro hl
  apply h
  simp only [String.toList] at hl
  simp [hl]

theorem tokenizeAux_name (s : String) (hs : validNameB s = true) (l : List Char)
    (hl : headSpecial l) :
    tokenizeAux (s.toList ++ l) = Tok.name s :: tokenizeAux l := by
  simp only [validNameB, Bool.and_eq_true, decide_eq_true_eq, Bool.not_eq_true',
    List.all_eq_true] at hs
  obtain ⟨hne, hchars⟩ := hs
  have hne2 : s.toList ≠ [] := string_toList_ne_nil (by simpa using hne)
  obtain ⟨c, cs, hcs⟩ : ∃ c cs, s.toList = c :: cs := by
    cases h : s.toList with
    | nil => exact absurd h hne2
    | cons c cs => exact ⟨c, cs, rfl⟩
  have hq : ∀ d ∈ s.toList, (!isSpecial d) = true := by
    intro d hd
    simpa using hchars d hd
  have hql : ∀ d, l.head? = some d → (!isSpecial d) = false := by
    intro d hd
    simpa using hl d hd
  rw [hcs, List.cons_append, tokenizeAux]
  have hcspec : isSpecial c = false := by
    simpa using hchars c (by rw [hcs]; simp)
  rw [if_neg (by simp [hcspec])]
  have htake : (c :: (cs ++ l)).takeWhile (fun d => !isSpecial d) = c :: cs := by
    have : (c :: (cs ++ l)) = (c :: cs) ++ l := by simp
    rw [this, takeWhile_append_of_all (c :: cs) l (by rw [← hcs]; exact hq),
      takeWhile_eq_nil_of_head l hql, List.append_nil]
  have hdrop : (cs ++ l).dropWhile (fun d => !isSpecial d) = l := by
    rw [dropWhile_append_of_all cs l (fun d hd => hq d (by rw [hcs]; simp [hd])),
      dropWhile_eq_self_of_head l hql]
  rw [htake, hdrop, ← hcs]
  obtain ⟨data⟩ := s
  rfl

theorem tokenizeAux_index (n : Nat) (l : List Char) :
    tokenizeAux ('[' :: (natDigits n ++ (']' :: l))) = Tok.index n :: tokenizeAux l := by
  rw [tokenizeAux]
  rw [if_pos (by decide), if_pos rfl]
  have htake : (natDigits n ++ (']' :: l)).takeWhile Char.isDigit = natDigits n := by
    rw [takeWhile_append_of_all _ _ (natDigits_isDigit n),
      takeWhile_eq_nil_of_head _ (by intro c hc; simp at hc; subst hc; decide),
      List.append_nil]
  have hdrop : (natDigits n ++ (']' :: l)).dropWhile Char.isDigit = ']' :: l := by
    rw [dropWhile_append_of_all _ _ (natDigits_isDigit n),
      dropWhile_eq_self_of_head _ (by intro c hc; simp at hc; subst hc; decide)]
  rw [if_pos (by rw [htake, hdrop]; exact ⟨natDigits_ne_nil n, rfl⟩)]
  rw [htake, hdrop, digitsToNat_natDigits]
  rfl

theorem headSpecial_flatten (toks : List Tok) :
    headSpecial ((toks.map renderTokChars).flatten) := by
  cases toks with
  | nil => intro c hc; simp at hc
  | cons t rest =>
    intro c hc
    cases t with
    | name s =>
      simp only [List.map_cons, List.flatten_cons, renderTokChars, List.cons_append,
        List.head?_cons, Option.some.injEq] at hc
      subst hc; decide
    | index n =>
      simp only [List.map_cons, List.flatten_cons, renderTokChars, List.cons_append,
        List.head?_cons, Option.some.injEq] at hc
      subst hc; decide

theorem tokenizeAux_flatten : ∀ toks : List Tok, (∀ t ∈ toks, validTokB t = true) →
    tokenizeAux ((toks.map renderTokChars).flatten) = toks := by
  intro toks
  induction toks with
  | nil => intro _; rw [List.map_nil, List.flatten_nil, tokenizeAux]
  | cons t rest ih =>
    intro h
    have hrest : ∀ t2 ∈ rest, validTokB t2 = true := fun t2 ht2 => h t2 (by simp [ht2])
    cases t with
    | name s =>
      have hs : validNameB s = true := by simpa [validTokB] using h (Tok.name s) (by simp)
      simp only [List.map_cons, List.flatten_cons, renderTokChars, List.cons_append]
      rw [tokenizeAux_cons_special (by decide) (by decide),
        tokenizeAux_name s hs _ (headSpecial_flatten rest), ih hrest]
    | index n =>
      simp only [List.map_cons, List.flatten_cons, renderTokChars, List.cons_append,
        List.append_assoc, List.singleton_append]
      rw [tokenizeAux_index n _, List.nil_append, ih hrest]

theorem tokenize_renderPath (toks : List Tok) (h : validPathB toks = true) :
    tokenize_path (renderPath toks) = toks := by
  cases toks with
  | nil => simp [validPathB] at h
  | cons t rest =>
    cases t with
    | index n => simp [validPathB] at h
    | name s =>
      simp only [validPathB, Bool.and_eq_true, List.all_eq_true] at h
      obtain ⟨hs, hrest⟩ := h
      show tokenizeAux (renderPathChars (Tok.name s :: rest)) = Tok.name s :: rest
      rw [renderPathChars, tokenizeAux_name s hs _ (headSpecial_flatten rest),
        tokenizeAux_flatten rest hrest]

/-! ### Lemmas about nested assignment -/

theorem parse_one (kv : String × String) :
    parse_nested_form_data [kv] = parseStep [] kv := by
  simp [parse_nested_form_data, List.foldlM]

theorem replicate_get? (x : PVal) : ∀ n i, i < n →
    (List.replicate n x).get? i = some x := by
  intro n
  induction n with
  | zero => omega
  | succ n ih =>
    intro i h
    cases i with
    | zero => rfl
    | succ i => simpa [List.replicate] using ih i (by omega)

theorem listSet_replicate_last (x v : PVal) :
    ∀ i, listSet (List.replicate (i + 1) x) i v = List.replicate i x ++ [v] := by
  intro i
  induction i with
  | zero => rfl
  | succ i ih =>
    rw [List.replicate_succ, listSet, ih, List.replicate_succ, List.cons_append]

theorem append_singleton_get? {l : List PVal} {n : Nat} (h : l.length = n) (v : PVal) :
    (l ++ [v]).get? n = some v := by
  subst h
  induction l with
  | nil => rfl
  | cons x xs ih => exact ih

theorem padTo_nil (n : Nat) : padTo [] n = List.replicate (n + 1) PVal.vNone := by
  simp [padTo]

theorem assign_fresh : ∀ toks : List Tok, toks ≠ [] → ∀ v : PVal,
    ∃ r, assign_nested (emptyChild toks) toks v = Except.ok r ∧
      getPath r toks = some v := by
  intro toks
  induction toks with
  | nil => intro h; exact absurd rfl h
  | cons t rest ih =>
    intro _ v
    cases t with
    | name s =>
      by_cases hrest : rest = []
      · subst hrest
        refine ⟨PVal.vDict [(Tok.name s, v)], ?_, ?_⟩
        · simp [emptyChild, assign_nested, dictSet]
        · simp [getPath, dictGet]
      · obtain ⟨r, har, hgr⟩ := ih hrest v
        refine ⟨PVal.vDict [(Tok.name s, r)], ?_, ?_⟩
        · show assign_nested (PVal.vDict []) (Tok.name s :: rest) v = _
          rw [assign_nested, if_neg hrest]
          simp only [dictGet, har, Except.map, dictSet]
        · simp [getPath, dictGet, hgr]
    | index n =>
      by_cases hrest : rest = []
      · subst hrest
        refine ⟨PVal.vArr (List.replicate n PVal.vNone ++ [v]), ?_, ?_⟩
        · show assign_nested (PVal.vArr []) [Tok.index n] v = _
          rw [assign_nested, if_pos rfl, padTo_nil, listSet_replicate_last]
        · show ((List.replicate n PVal.vNone ++ [v]).get? n).bind
            (fun c => getPath c []) = some v
          rw [append_singleton_get? (by simp) v]
          cases v <;> rfl
      · obtain ⟨r, har, hgr⟩ := ih hrest v
        refine ⟨PVal.vArr (List.replicate n PVal.vNone ++ [r]), ?_, ?_⟩
        · show assign_nested (PVal.vArr []) (Tok.index n :: rest) v = _
          rw [assign_nested, if_neg hrest, padTo_nil]
          rw [replicate_get? PVal.vNone (n + 1) n (by omega)]
          simp only [har, Except.map, listSet_replicate_last]
        · show ((List.replicate n PVal.vNone ++ [r]).get? n).bind
            (fun c => getPath c rest) = some v
          rw [append_singleton_get? (by simp) r]
          exact hgr

theorem except_map_ok {α β : Type} {f : α → β} {x : Except String α} {r : β}
    (h : Except.map f x = Except.ok r) : ∃ c, x = Except.ok c ∧ r = f c := by
  cases x with
  | error e => simp [Except.map] at h
  | ok c => exact ⟨c, rfl, by simpa [Except.map] using h.symm⟩

theorem assign_vDict_shape :
    ∀ (toks : List Tok) (es : List (Tok × PVal)) (v r : PVal),
      assign_nested (PVal.vDict es) toks v = Except.ok r →
      ∃ es2, r = PVal.vDict es2 := by
  intro toks es v r h
  cases toks with
  | nil =>
    rw [assign_nested] at h
    exact ⟨es, by injection h with h2; exact h2.symm⟩
  | cons t rest =>
    cases t with
    | name s =>
      rw [assign_nested] at h
      by_cases hrest : rest = []
      · rw [if_pos hrest] at h
        exact ⟨_, by injection h with h2; exact h2.symm⟩
      · rw [if_neg hrest] at h
        simp only [] at h
        obtain ⟨c, _, hr⟩ := except_map_ok h
        exact ⟨_, hr⟩
    | index n =>
      rw [assign_nested] at h
      by_cases hlen : es.length ≤ n
      · rw [if_pos hlen] at h; cases h
      · rw [if_neg hlen] at h
        by_cases hrest : rest = []
        · rw [if_pos hrest] at h
          exact ⟨_, by injection h with h2; exact h2.symm⟩
        · rw [if_neg hrest] at h
          cases hget : dictGet es (Tok.index n) with
          | none => rw [hget] at h; simp at h
          | some c =>
            rw [hget] at h
            cases c <;> simp only [] at h <;>
              · obtain ⟨c2, _, hr⟩ := except_map_ok h
                exact ⟨_, hr⟩

/-! ### Small step lemmas used to evaluate `assign_nested` symbolically -/

theorem assign_name_fresh_step (s : String) (t2 : Tok) (rest2 : List Tok) (v : PVal) :
    assign_nested (PVal.vDict []) (Tok.name s :: t2 :: rest2) v =
      (assign_nested (emptyChild (t2 :: rest2)) (t2 :: rest2) v).map
        (fun c2 => PVal.vDict [(Tok.name s, c2)]) := by
  rw [assign_nested, if_neg (by simp)]
  rfl

theorem assign_index_name_step (i : Nat) (f : String) (v : PVal) :
    assign_nested (PVal.vArr []) [Tok.index i, Tok.name f] v =
      Except.ok (PVal.vArr (List.replicate i PVal.vNone ++
        [PVal.vDict [(Tok.name f, v)]])) := by
  rw [assign_nested, if_neg (by simp), padTo_nil,
    replicate_get? PVal.vNone (i + 1) i (by omega)]
  refine Eq.trans (b := Except.ok (PVal.vArr
    (listSet (List.replicate (i + 1) PVal.vNone) i
      (PVal.vDict [(Tok.name f, v)])))) rfl ?_
  rw [listSet_replicate_last]

theorem assign_pets_path (i : Nat) (f : String) (v : PVal) :
    assign_nested (PVal.vDict []) [Tok.name "pets", Tok.index i, Tok.name f] v =
      Except.ok (PVal.vDict [(Tok.name "pets", PVal.vArr
        (List.replicate i PVal.vNone ++ [PVal.vDict [(Tok.name f, v)]]))]) := by
  rw [assign_name_fresh_step, show emptyChild (Tok.index i :: [Tok.name f]) =
    PVal.vArr [] from rfl, assign_index_name_step]
  rfl

/-- C1: for every string value `v`, `parse_nested_form_data` applied to the
single-entry mapping `pets[0].name ↦ v` returns a dictionary mapping
`pets` to a one-element list whose element is a dictionary holding `name`
with the converted form value of `v`. -/
theorem parse_pets0_name (v : String) :
    parse_nested_form_data [("pets[0].name", v)] =
      Except.ok [(Tok.name "pets",
        PVal.vArr [PVal.vDict [(Tok.name "name", convert_form_value v)]])] := by
  have ht : tokenize_path "pets[0].name" =
      [Tok.name "pets", Tok.index 0, Tok.name "name"] :=
    tokenize_renderPath [Tok.name "pets", Tok.index 0, Tok.name "name"] (by decide)
  rw [parse_one]
  simp only [parseStep, ht]
  rw [assign_pets_path 0 "name" (convert_form_value v)]
  rfl

/-- C2: for every well-formed flat form key (name head, alternating name and
bracketed decimal index segments), `parse_nested_form_data` tokenizes the
key into name and integer index tokens and builds nested containers so that
dereferencing the full token path (names select dict entries, indices
select list positions) finds the converted value. -/
theorem parse_places_value_at_path (toks : List Tok) (hv : validPathB toks = true)
    (v : String) :
    tokenize_path (renderPath toks) = toks ∧
    ∃ es, parse_nested_form_data [(renderPath toks, v)] = Except.ok es ∧
      getPath (PVal.vDict es) toks = some (convert_form_value v) := by
  refine ⟨tokenize_renderPath toks hv, ?_⟩
  obtain ⟨s, rest, htoks⟩ : ∃ s rest, toks = Tok.name s :: rest := by
    cases toks with
    | nil => simp [validPathB] at hv
    | cons t rest =>
      cases t with
      | name s => exact ⟨s, rest, rfl⟩
      | index n => simp [validPathB] at hv
  subst htoks
  rw [parse_one]
  simp only [parseStep]
  simp only [tokenize_renderPath _ hv]
  cases rest with
  | nil =>
    refine ⟨[(Tok.name s, convert_form_value v)], rfl, ?_⟩
    simp [getPath, dictGet]
  | cons t2 rest2 =>
    have hne : (Tok.name s :: t2 :: rest2) ≠ [] := by simp
    obtain ⟨r, har, hgr⟩ :=
      assign_fresh (Tok.name s :: t2 :: rest2) hne (convert_form_value v)
    have hech : emptyChild (Tok.name s :: t2 :: rest2) = PVal.vDict [] := rfl
    rw [hech] at har
    obtain ⟨es, hes⟩ := assign_vDict_shape _ _ _ _ har
    subst hes
    refine ⟨es, ?_, hgr⟩
    show (match assign_nested (PVal.vDict []) (Tok.name s :: t2 :: rest2)
        (convert_form_value v) with
      | Except.ok (PVal.vDict es) => Except.ok es
      | Except.ok _ => Except.error "TypeError"
      | Except.error e => Except.error e) = Except.ok es
    rw [har]

/-- Witness for C2 at the concrete key `pets[0].name` with value `Rex`. -/
theorem parse_places_value_at_path_witness :
    validPathB [Tok.name "pets", Tok.index 0, Tok.name "name"] = true ∧
    (tokenize_path (renderPath [Tok.name "pets", Tok.index 0, Tok.name "name"]) =
        [Tok.name "pets", Tok.index 0, Tok.name "name"] ∧
      ∃ es, parse_nested_form_data
          [(renderPath [Tok.name "pets", Tok.index 0, Tok.name "name"], "Rex")] =
          Except.ok es ∧
        getPath (PVal.vDict es) [Tok.name "pets", Tok.index 0, Tok.name "name"] =
          some (convert_form_value "Rex")) :=
  ⟨by decide, parse_places_value_at_path _ (by decide) "Rex"⟩

/-- C9: when the only key addresses index `i` of a list without addressing
the smaller indices (`pets[i].name`), the resulting list is padded with
`None`: it has length `i + 1` with `None` at every position below `i`. -/
theorem parse_pads_with_none (i : Nat) (v : String) :
    parse_nested_form_data
        [(renderPath [Tok.name "pets", Tok.index i, Tok.name "name"], v)] =
      Except.ok [(Tok.name "pets", PVal.vArr
        (List.replicate i PVal.vNone ++
         [PVal.vDict [(Tok.name "name", convert_form_value v)]]))] ∧
    (List.replicate i PVal.vNone ++
      [PVal.vDict [(Tok.name "name", convert_form_value v)]]).length = i + 1 := by
  have hv : validPathB [Tok.name "pets", Tok.index i, Tok.name "name"] = true := by
    simp only [validPathB, List.all_cons, List.all_nil, validTokB, Bool.and_true]
    decide
  constructor
  · rw [parse_one]
    simp only [parseStep]
    simp only [tokenize_renderPath _ hv]
    rw [assign_pets_path i "name" (convert_form_value v)]
  · simp

/-- C10: `convert_form_value` maps the case-insensitive strings `true`,
`on`, `yes`, `1` to `True` and `false`, `off`, `no`, `0` to `False`, and
returns every other string unchanged (no numeric conversion); in
particular the text value `"1"` becomes `True`. -/
theorem convert_form_value_cases (s : String) :
    ((strLower s = "true" ∨ strLower s = "on" ∨ strLower s = "yes" ∨
        strLower s = "1") → convert_form_value s = PVal.vBool true) ∧
    ((strLower s = "false" ∨ strLower s = "off" ∨ strLower s = "no" ∨
        strLower s = "0") → convert_form_value s = PVal.vBool false) ∧
    ((strLower s ≠ "true" ∧ strLower s ≠ "false" ∧ strLower s ≠ "on" ∧
        strLower s ≠ "yes" ∧ strLower s ≠ "1" ∧ strLower s ≠ "off" ∧
        strLower s ≠ "no" ∧ strLower s ≠ "0") →
      convert_form_value s = PVal.vStr s) ∧
    convert_form_value "1" = PVal.vBool true := by
  refine ⟨?_, ?_, ?_, rfl⟩
  · intro h
    rcases h with h | h | h | h <;> simp only [convert_form_value] <;> rw [h] <;> rfl
  · intro h
    rcases h with h | h | h | h <;> simp only [convert_form_value] <;> rw [h] <;> rfl
  · rintro ⟨h1, h2, h3, h4, h5, h6, h7, h8⟩
    simp only [convert_form_value]
    rw [if_neg h1, if_neg h2, if_neg (by tauto), if_neg (by tauto)]

/-- Witness for C10 at the concrete input `TRUE`. -/
theorem convert_form_value_cases_witness :
    (strLower "TRUE" = "true" ∨ strLower "TRUE" = "on" ∨ strLower "TRUE" = "yes" ∨
      strLower "TRUE" = "1") ∧ convert_form_value "TRUE" = PVal.vBool true :=
  ⟨Or.inl (by decide), (convert_form_value_cases "TRUE").1 (Or.inl (by decide))⟩

/-- C3: `handle_form_submission` first parses the flat keys, then validates
the parsed data; it returns `success = True` with the validated data when
validation succeeds, `success = False` with a non-empty error mapping when
it fails (given that the validator reports at least one error for invalid
data, as Pydantic does), and converts any exception into
`{'success': False, 'errors': {'form': message}}`, never raising. -/
theorem handle_form_submission_spec
    (validator : List (Tok × PVal) → Except String VResult)
    (fd : List (String × String)) (msg : String)
    (hval : ∀ p errs, validator p = Except.ok (VResult.invalid errs) → errs ≠ []) :
    (∀ p d, parse_nested_form_data fd = Except.ok p →
        validator p = Except.ok (VResult.valid d) →
        handle_form_submission validator fd msg = ⟨true, some msg, some d, none⟩) ∧
    (∀ p errs, parse_nested_form_data fd = Except.ok p →
        validator p = Except.ok (VResult.invalid errs) →
        handle_form_submission validator fd msg = ⟨false, none, none, some errs⟩ ∧
          errs ≠ []) ∧
    (∀ e, parse_nested_form_data fd = Except.error e →
        handle_form_submission validator fd msg =
          ⟨false, none, none, some [("form", e)]⟩) ∧
    (∀ p e, parse_nested_form_data fd = Except.ok p →
        validator p = Except.error e →
        handle_form_submission validator fd msg =
          ⟨false, none, none, some [("form", e)]⟩) ∧
    ((handle_form_submission validator fd msg).success = false →
      ∃ errs, (handle_form_submission validator fd msg).errors = some errs ∧
        errs ≠ []) := by
  refine ⟨?_, ?_, ?_, ?_, ?_⟩
  · intro p d hp hv
    simp [handle_form_submission, hp, hv]
  · intro p errs hp hv
    exact ⟨by simp [handle_form_submission, hp, hv], hval p errs hv⟩
  · intro e hp
    simp [handle_form_submission, hp]
  · intro p e hp hv
    simp [handle_form_submission, hp, hv]
  · intro hs
    cases hp : parse_nested_form_data fd with
    | error e =>
      refine ⟨[("form", e)], ?_, by simp⟩
      simp [handle_form_submission, hp]
    | ok p =>
      cases hv : validator p with
      | error e =>
        refine ⟨[("form", e)], ?_, by simp⟩
        simp [handle_form_submission, hp, hv]
      | ok r =>
        cases r with
        | valid d =>
          exfalso
          simp [handle_form_submission, hp, hv] at hs
        | invalid errs =>
          refine ⟨errs, ?_, hval p errs hv⟩
          simp [handle_form_submission, hp, hv]

/-- An example validator used by the C3 witness: it always reports one
validation error. -/
def alwaysInvalidValidator : List (Tok × PVal) → Except String VResult :=
  fun _ => Except.ok (VResult.invalid [("name", "required")])

/-- Witness for C3: the always-invalid validator on the empty submission. -/
theorem handle_form_submission_spec_witness :
    handle_form_submission alwaysInvalidValidator [] "ok" =
      ⟨false, none, none, some [("name", "required")]⟩ ∧
    [("name", "required")] ≠ ([] : List (String × String)) :=
  (handle_form_submission_spec alwaysInvalidValidator [] "ok"
    (fun p errs h => by
      simp only [alwaysInvalidValidator, Except.ok.injEq, VResult.invalid.injEq] at h
      subst h
      simp)).2.1 [] [("name", "required")] rfl rfl

/-! ## Analytics logger embedding (`src/analytics.py`)

Timestamps are modelled as naturals (seconds).  The code stores ISO-8601
UTC strings produced by `_iso`, whose lexicographic order agrees with
chronological order, so `<` on naturals models the SQL string comparison
`ts < cutoff`, and `datetime` subtraction is modelled by truncated natural
subtraction (a negative Python `timedelta` compares below any positive
bound exactly as the truncated difference `0` does). -/

/-- ASCII whitespace stripped by Python `str.strip()`. -/
def isPyWS (c : Char) : Bool :=
  c = ' ' || c = '\t' || c = '\n' || c = '\r' ||
    c = Char.ofNat 11 || c = Char.ofNat 12

/-- Model of Python `str.strip()` (ASCII whitespace). -/
def strTrim (s : String) : String :=
  String.mk (((s.toList.dropWhile isPyWS).reverse.dropWhile isPyWS).reverse)

/-- Does the list start with the given needle? -/
def startsWithSeq : List Char → List Char → Bool
  | [], _ => true
  | _ :: _, [] => false
  | n :: ns, h :: hs => n = h && startsWithSeq ns hs

/-- Is the needle a contiguous subsequence of the haystack? -/
def containsSeq : List Char → List Char → Bool
  | needle, [] => startsWithSeq needle []
  | needle, c :: hs => startsWithSeq needle (c :: hs) || containsSeq needle hs

/-- Python `needle in hay` on strings. -/
def strContains (hay needle : String) : Bool :=
  containsSeq needle.toList hay.toList

/-- One or more decimal digits, as accepted by Python `int` after a sign. -/
def parseDigits (cs : List Char) : Option Nat :=
  if cs = [] then none
  else if cs.all Char.isDigit then some (digitsToNat cs) else none

/-- Model of Python `int(s)` on decimal strings: strip whitespace, optional
sign, one or more digits; `none` models a `ValueError`. -/
def pyInt (s : String) : Option Int :=
  match (strTrim s).toList with
  | '-' :: cs => (parseDigits cs).map (fun n => -(n : Int))
  | '+' :: cs => (parseDigits cs).map (fun n => (n : Int))
  | cs => (parseDigits cs).map (fun n => (n : Int))

/-- The environment variables read by `src/analytics.py`; `none` is unset. -/
structure Env where
  retentionDaysVar : Option String
  maxRowsVar : Option String
  geoipEnabledVar : Option String
  geoipCacheTtlVar : Option String

/-- `_parse_int` from `src/analytics.py`. -/
def parse_int (value : Option String) (default : Int) : Int :=
  match value with
  | none => default
  | some s =>
    match pyInt s with
    | some n => n
    | none => default

/-- `get_retention_days`: `max(1, ANALYTICS_RETENTION_DAYS or 7)`. -/
def get_retention_days (env : Env) : Int :=
  max 1 (parse_int env.retentionDaysVar 7)

/-- `get_max_rows`: `max(1000, ANALYTICS_MAX_ROWS or 200000)`. -/
def get_max_rows (env : Env) : Int :=
  max 1000 (parse_int env.maxRowsVar 200000)

/-- `_truthy_env` from `src/analytics.py`. -/
def truthy_env (raw : Option String) (default : Bool) : Bool :=
  match raw with
  | none => default
  | some raw0 =>
    let r := strLower (strTrim raw0)
    if r = "1" ∨ r = "true" ∨ r = "yes" ∨ r = "y" ∨ r = "on" then true
    else if r = "0" ∨ r = "false" ∨ r = "no" ∨ r = "n" ∨ r = "off" then false
    else default

/-- `_geoip_enabled`: opt-in via `ANALYTICS_GEOIP_ENABLED`, default off. -/
def geoip_enabled (env : Env) : Bool :=
  truthy_env env.geoipEnabledVar false

/-- `_geoip_cache_ttl_seconds`: default 86400, at least 60. -/
def geoip_cache_ttl (env : Env) : Int :=
  match env.geoipCacheTtlVar with
  | none => 86400
  | some raw =>
    match pyInt raw with
    | some n => max 60 n
    | none => 86400

/-- A group of 1 to 3 decimal digits (`\d{1,3}`). -/
def isDigitGroup (g : List Char) : Bool :=
  !(g = []) && g.length ≤ 3 && g.all Char.isDigit

/-- Python `str.split(sep)` on character lists. -/
def splitOnChar (sep : Char) (cs : List Char) : List (List Char) :=
  cs.foldr (fun c acc =>
    match acc with
    | g :: rest => if c = sep then [] :: g :: rest else (c :: g) :: rest
    | [] => [[c]]) [[]]

/-- `\d{1,3}(?:\.\d{1,3}){3}`: a dotted quad of digit groups. -/
def isDottedQuad (cs : List Char) : Bool :=
  match splitOnChar '.' cs with
  | [a, b, c, d] =>
    isDigitGroup a && isDigitGroup b && isDigitGroup c && isDigitGroup d
  | _ => false

/-- The regex `^\d{1,3}(?:\.\d{1,3}){3}:\d+$` from `_normalize_ip`
(an IPv4 address followed by a port). -/
def isV4WithPort (cs : List Char) : Bool :=
  match splitOnChar ':' cs with
  | [a, b] => isDottedQuad a && !(b = []) && b.all Char.isDigit
  | _ => false

/-- `_normalize_ip` from `src/analytics.py`: strip whitespace, strip a port
from `a.b.c.d:port`, unwrap `[v6]:port` brackets. -/
def normalize_ip (ip : Option String) : Option String :=
  match ip with
  | none => none
  | some ip0 =>
    if ip0 = "" then none
    else
      let s := strTrim ip0
      if s = "" then none
      else
        let cs := s.toList
        let cs := if isV4WithPort cs then cs.takeWhile (fun c => !(c = ':')) else cs
        if cs.head? = some '[' ∧ containsSeq [']', ':'] cs = true then
          some (String.mk (cs.tail.takeWhile (fun c => !(c = ']'))))
        else some (String.mk cs)

/-- `_is_public_ip` from `src/analytics.py`.  `ipGlobal` abstracts the
stdlib call `ipaddress.ip_address(s).is_global`; `none` models the
`ValueError` raised on an unparsable address. -/
def is_public_ip (ipGlobal : String → Option Bool) (ip : Option String) : Bool :=
  match normalize_ip ip with
  | none => false
  | some s =>
    if s = "" then false
    else
      match ipGlobal s with
      | none => false
      | some g => g

/-- The location fields decoded from the ipapi.co JSON response. -/
structure GeoInfo where
  country_code : Option String
  country : Option String
  region : Option String
  city : Option String
  latitude : Option Rat
  longitude : Option Rat

/-- `dict.get` on the geoip cache. -/
def cacheGet : List (String × Nat × Option GeoInfo) → String →
    Option (Nat × Option GeoInfo)
  | [], _ => none
  | (k, e) :: rest, ip => if k = ip then some e else cacheGet rest ip

/-- `geoip_enrich` from `src/analytics.py` (its return value; the in-place
cache write-back and eviction do not affect the returned value and are not
modelled).  `lookup` abstracts `_geoip_lookup_ipapi_co`, which returns
`None` on any network or decoding failure and never raises. -/
def geoip_enrich (env : Env) (ipGlobal : String → Option Bool)
    (lookup : String → Option GeoInfo)
    (cache : List (String × Nat × Option GeoInfo)) (now : Nat)
    (client_ip : Option String) : Option GeoInfo :=
  if geoip_enabled env = false then none
  else
    match normalize_ip client_ip with
    | none => none
    | some ip =>
      if ip = "" then none
      else if is_public_ip ipGlobal (some ip) = false then none
      else
        match cacheGet cache ip with
        | some (ts, value) =>
          if now - ts ≤ (geoip_cache_ttl env).toNat then value else lookup ip
        | none => lookup ip

/-- A table created by `init_db` (name and columns, transcribed from DDL). -/
structure TableDef where
  name : String
  columns : List String
  deriving DecidableEq

/-- The tables `init_db` creates: `request_log`, `error_log`, `meta`. -/
def init_db_tables : List TableDef :=
  [⟨"request_log",
    ["id", "ts", "request_id", "user_id", "method", "path", "status_code",
     "duration_ms", "client_ip", "country", "country_code", "region", "city",
     "latitude", "longitude", "user_agent", "browser", "referer"]⟩,
   ⟨"error_log",
    ["id", "ts", "request_id", "user_id", "kind", "message", "detail", "path",
     "method", "status_code", "client_ip", "user_agent"]⟩,
   ⟨"meta", ["key", "value"]⟩]

/-- The table `record_request` inserts into. -/
def record_request_table : String := "request_log"

/-- The table `record_error` inserts into. -/
def record_error_table : String := "error_log"

/-- A row of `request_log`. -/
structure RequestRow where
  id : Nat
  ts : Nat
  request_id : Option String
  user_id : Option String
  method : String
  path : String
  status_code : Int
  duration_ms : Int
  client_ip : Option String
  country : Option String
  country_code : Option String
  region : Option String
  city : Option String
  latitude : Option Rat
  longitude : Option Rat
  user_agent : Option String
  browser : String
  referer : Option String

/-- A row of `error_log`. -/
structure ErrorRow where
  id : Nat
  ts : Nat
  request_id : Option String
  user_id : Option String
  kind : String
  message : String
  detail : Option String
  path : Option String
  method : Option String
  status_code : Option Int
  client_ip : Option String
  user_agent : Option String

/-- The stored `last_prune_ts` meta value: either a timestamp that
`datetime.fromisoformat` parses, or garbage it rejects. -/
inductive MetaTs where
  | valid (t : Nat)
  | garbage (s : String)
  deriving DecidableEq

/-- The SQLite database state.  The two log tables are kept in ascending-id
order, as produced by AUTOINCREMENT inserts; the id counters model
AUTOINCREMENT's persistent next id.  Only the `last_prune_ts` key of the
`meta` table is ever used by the code. -/
structure DB where
  request_log : List RequestRow
  error_log : List ErrorRow
  last_prune_ts : Option MetaTs
  next_request_id : Nat
  next_error_id : Nat

/-- `_should_prune`: prune when `last_prune_ts` is absent, unparsable, or
more than 10 minutes (600 seconds) in the past. -/
def should_prune (db : DB) (now : Nat) : Bool :=
  match db.last_prune_ts with
  | none => true
  | some (MetaTs.garbage _) => true
  | some (MetaTs.valid t) => decide (600 < now - t)

/-- `_set_last_prune`: upsert `last_prune_ts := now`. -/
def set_last_prune (db : DB) (now : Nat) : DB :=
  { db with last_prune_ts := some (MetaTs.valid now) }

/-- The retention cutoff `_utcnow() - timedelta(days=get_retention_days())`
in seconds. -/
def prune_cutoff (env : Env) (now : Nat) : Int :=
  (now : Int) - get_retention_days env * 86400

/-- `_prune` on `request_log`: delete rows with `ts < cutoff`, then if the
count still exceeds `get_max_rows`, delete the excess rows with the
smallest ids (the list is in ascending id order, so they are the ones at
the front). -/
def prune_requests (env : Env) (now : Nat) (rows : List RequestRow) :
    List RequestRow :=
  let kept := rows.filter (fun r => !decide ((r.ts : Int) < prune_cutoff env now))
  if get_max_rows env < (kept.length : Int) then
    kept.drop (kept.length - (get_max_rows env).toNat)
  else kept

/-- `_prune` on `error_log`. -/
def prune_errors (env : Env) (now : Nat) (rows : List ErrorRow) :
    List ErrorRow :=
  let kept := rows.filter (fun r => !decide ((r.ts : Int) < prune_cutoff env now))
  if get_max_rows env < (kept.length : Int) then
    kept.drop (kept.length - (get_max_rows env).toNat)
  else kept

/-- `_prune` from `src/analytics.py`. -/
def prune (env : Env) (now : Nat) (db : DB) : DB :=
  { db with
    request_log := prune_requests env now db.request_log,
    error_log := prune_errors env now db.error_log }

/-- The keyword arguments of `record_request`. -/
structure RequestArgs where
  request_id : Option String
  user_id : Option String
  method : String
  path : String
  status_code : Int
  duration_ms : Int
  client_ip : Option String
  country : Option String
  user_agent : Option String
  referer : Option String

/-- `_browser_family` from `src/analytics.py`. -/
def browser_family (user_agent : Option String) : String :=
  let ua := strLower (match user_agent with | none => "" | some s => s)
  if ua = "" then "unknown"
  else if strContains ua "edg/" || strContains ua "edge/" then "edge"
  else if strContains ua "chrome/" && !strContains ua "chromium" &&
      !strContains ua "edg/" then "chrome"
  else if strContains ua "firefox/" then "firefox"
  else if strContains ua "safari/" && !strContains ua "chrome/" then "safari"
  else if strContains ua "curl/" || strContains ua "wget/" ||
      strContains ua "httpie" then "cli"
  else "other"

/-- Python `x or y` on optional strings (both `None` and `""` are falsy). -/
def pyOrStr (a b : Option String) : Option String :=
  match a with
  | none => b
  | some s => if s = "" then b else some s

/-- Python `x or None` on optional strings. -/
def pyOrNone (a : Option String) : Option String :=
  match a with
  | none => none
  | some s => if s = "" then none else some s

/-- The best-effort 2-letter country-code extraction in `record_request`. -/
def header_country_code (country : Option String) : Option String :=
  match country with
  | none => none
  | some c =>
    if c = "" then none
    else
      let m := strUpper (strTrim c)
      if m.length = 2 ∧ m.toList.all Char.isAlpha then some m else none

/-- The `request_log` row assembled by `record_request` before insertion:
geo values are preferred when enrichment returned something; otherwise
region, city, latitude and longitude are `None`. -/
def build_request_row (env : Env) (ipGlobal : String → Option Bool)
    (lookup : String → Option GeoInfo)
    (cache : List (String × Nat × Option GeoInfo)) (now : Nat) (rid : Nat)
    (a : RequestArgs) : RequestRow :=
  let normalized := normalize_ip a.client_ip
  let cc0 := header_country_code a.country
  match geoip_enrich env ipGlobal lookup cache now normalized with
  | some g =>
    { id := rid, ts := now, request_id := a.request_id, user_id := a.user_id,
      method := a.method, path := a.path, status_code := a.status_code,
      duration_ms := a.duration_ms, client_ip := normalized,
      country := pyOrNone (pyOrStr g.country a.country),
      country_code := pyOrNone (pyOrStr g.country_code cc0),
      region := g.region, city := g.city,
      latitude := g.latitude, longitude := g.longitude,
      user_agent := a.user_agent, browser := browser_family a.user_agent,
      referer := a.referer }
  | none =>
    { id := rid, ts := now, request_id := a.request_id, user_id := a.user_id,
      method := a.method, path := a.path, status_code := a.status_code,
      duration_ms := a.duration_ms, client_ip := normalized,
      country := a.country, country_code := cc0,
      region := none, city := none, latitude := none, longitude := none,
      user_agent := a.user_agent, browser := browser_family a.user_agent,
      referer := a.referer }

/-- The keyword arguments of `record_error`. -/
structure ErrorArgs where
  request_id : Option String
  user_id : Option String
  kind : String
  message : String
  detail : Option String
  path : Option String
  method : Option String
  status_code : Option Int
  client_ip : Option String
  user_agent : Option String

/-- The `error_log` row assembled by `record_error` (fields stored as
passed; the client IP is not normalized here). -/
def build_error_row (now : Nat) (rid : Nat) (a : ErrorArgs) : ErrorRow :=
  { id := rid, ts := now, request_id := a.request_id, user_id := a.user_id,
    kind := a.kind, message := a.message, detail := a.detail, path := a.path,
    method := a.method, status_code := a.status_code, client_ip := a.client_ip,
    user_agent := a.user_agent }

/-- Append a row to `request_log` with the next AUTOINCREMENT id. -/
def insert_request (db : DB) (row : RequestRow) : DB :=
  { db with request_log := db.request_log ++ [row],
            next_request_id := db.next_request_id + 1 }

/-- Append a row to `error_log` with the next AUTOINCREMENT id. -/
def insert_error (db : DB) (row : ErrorRow) : DB :=
  { db with error_log := db.error_log ++ [row],
            next_error_id := db.next_error_id + 1 }

/-- Failure oracle for the fallible SQLite effects inside the recording
operations: `some e` makes the corresponding step raise with message `e`. -/
structure SqlOracle where
  connect_exc : Option String
  prune_exc : Option String
  insert_exc : Option String

/-- The `if _should_prune(conn): _prune(conn); _set_last_prune(conn)` step
shared by `record_request` and `record_error`. -/
def maybe_prune (o : SqlOracle) (env : Env) (now : Nat) (db : DB) :
    Except String DB :=
  if should_prune db now then
    match o.prune_exc with
    | some e => Except.error e
    | none => Except.ok (set_last_prune (prune env now db) now)
  else Except.ok db

/-- The body of `record_request` (everything inside its `try`). -/
def record_request_attempt (o : SqlOracle) (env : Env)
    (ipGlobal : String → Option Bool) (lookup : String → Option GeoInfo)
    (cache : List (String × Nat × Option GeoInfo)) (now : Nat) (db : DB)
    (a : RequestArgs) : Except String DB :=
  let row := build_request_row env ipGlobal lookup cache now db.next_request_id a
  match o.connect_exc with
  | some e => Except.error e
  | none =>
    match maybe_prune o env now db with
    | Except.error e => Except.error e
    | Except.ok db1 =>
      match o.insert_exc with
      | some e => Except.error e
      | none => Except.ok (insert_request db1 row)

/-- The body of `record_error` (everything inside its `try`). -/
def record_error_attempt (o : SqlOracle) (env : Env) (now : Nat) (db : DB)
    (a : ErrorArgs) : Except String DB :=
  let row := build_error_row now db.next_error_id a
  match o.connect_exc with
  | some e => Except.error e
  | none =>
    match maybe_prune o env now db with
    | Except.error e => Except.error e
    | Except.ok db1 =>
      match o.insert_exc with
      | some e => Except.error e
      | none => Except.ok (insert_error db1 row)

/-- `record_request`: the entire body runs inside `try`, and the
`except Exception: return` swallows every exception, so the caller always
gets a normal return (`ok`); `some db2` reports a completed run, `none` a
swallowed failure. -/
def record_request (o : SqlOracle) (env : Env)
    (ipGlobal : String → Option Bool) (lookup : String → Option GeoInfo)
    (cache : List (String × Nat × Option GeoInfo)) (now : Nat) (db : DB)
    (a : RequestArgs) : Except String (Option DB) :=
  Except.ok
    (match record_request_attempt o env ipGlobal lookup cache now db a with
     | Except.ok db2 => some db2
     | Except.error _ => none)

/-- `record_error`, wrapped the same way as `record_request`. -/
def record_error (o : SqlOracle) (env : Env) (now : Nat) (db : DB)
    (a : ErrorArgs) : Except String (Option DB) :=
  Except.ok
    (match record_error_attempt o env now db a with
     | Except.ok db2 => some db2
     | Except.error _ => none)

/-- C4 counterexample: the schema created by `init_db` has three tables,
not one, and the two recording operations write to two different tables. -/
theorem init_db_not_single_table :
    init_db_tables.length = 3 ∧ ¬init_db_tables.length = 1 ∧
    ¬record_request_table = record_error_table := by
  refine ⟨rfl, by decide, by decide⟩

/-- C4 amended: `init_db` creates exactly the three tables `request_log`,
`error_log` and `meta`; `record_request` writes all its entries to the
`request_log` time-series table and `record_error` writes all its entries
to the `error_log` time-series table (each carries a `ts` column), with
`meta` a small key-value table used for prune bookkeeping. -/
theorem init_db_three_tables :
    init_db_tables.map TableDef.name = ["request_log", "error_log", "meta"] ∧
    record_request_table = "request_log" ∧
    record_error_table = "error_log" ∧
    (∃ t ∈ init_db_tables, t.name = record_request_table ∧ "ts" ∈ t.columns) ∧
    (∃ t ∈ init_db_tables, t.name = record_error_table ∧ "ts" ∈ t.columns) := by
  refine ⟨rfl, rfl, rfl, by decide, by decide⟩

/-- C7: geo enrichment is opt-in and only for public addresses:
`geoip_enrich` returns `None` when the `ANALYTICS_GEOIP_ENABLED` flag is
not truthy, when the normalized IP is absent, and when the normalized IP
is not a globally routable address; in all those cases the row built by
`record_request` stores `None` for region, city, latitude and longitude. -/
theorem geoip_optional (env : Env) (ipGlobal : String → Option Bool)
    (lookup : String → Option GeoInfo)
    (cache : List (String × Nat × Option GeoInfo)) (now : Nat)
    (ip : Option String) :
    (geoip_enabled env = false →
      geoip_enrich env ipGlobal lookup cache now ip = none) ∧
    (normalize_ip ip = none →
      geoip_enrich env ipGlobal lookup cache now ip = none) ∧
    (∀ s, normalize_ip ip = some s →
      is_public_ip ipGlobal (some s) = false →
      geoip_enrich env ipGlobal lookup cache now ip = none) ∧
    (∀ a rid,
      geoip_enrich env ipGlobal lookup cache now (normalize_ip a.client_ip) =
        none →
      (build_request_row env ipGlobal lookup cache now rid a).region = none ∧
      (build_request_row env ipGlobal lookup cache now rid a).city = none ∧
      (build_request_row env ipGlobal lookup cache now rid a).latitude = none ∧
      (build_request_row env ipGlobal lookup cache now rid a).longitude = none) := by
  refine ⟨?_, ?_, ?_, ?_⟩
  · intro h
    simp [geoip_enrich, h]
  · intro h
    by_cases he : geoip_enabled env = false <;> simp [geoip_enrich, h, he]
  · intro s hs hp
    by_cases he : geoip_enabled env = false
    · simp [geoip_enrich, he]
    · by_cases hempty : s = ""
      · subst hempty
        simp [geoip_enrich, he, hs]
      · simp [geoip_enrich, he, hs, hempty, hp]
  · intro a rid h
    simp [build_request_row, h]

/-- Witness for C7: with the flag unset, enrichment of a public address
still returns `None`. -/
theorem geoip_optional_witness :
    geoip_enabled ⟨none, none, none, none⟩ = false ∧
    geoip_enrich ⟨none, none, none, none⟩ (fun _ => some true) (fun _ => none)
      [] 0 (some "8.8.8.8") = none :=
  ⟨rfl, (geoip_optional ⟨none, none, none, none⟩ (fun _ => some true)
    (fun _ => none) [] 0 (some "8.8.8.8")).1 rfl⟩

/-- C8: `record_request` and `record_error` never raise to their caller:
whatever the connection, pruning, and insertion steps do (oracle `o`),
the wrapped operations return normally, while the unwrapped bodies do
fail under a failing oracle (so the `except` clause is live). -/
theorem record_ops_never_raise (o : SqlOracle) (env : Env)
    (ipGlobal : String → Option Bool) (lookup : String → Option GeoInfo)
    (cache : List (String × Nat × Option GeoInfo)) (now : Nat) (db : DB)
    (a : RequestArgs) (o2 : SqlOracle) (now2 : Nat) (db2 : DB) (b : ErrorArgs) :
    (record_request o env ipGlobal lookup cache now db a).isOk = true ∧
    (record_error o2 env now2 db2 b).isOk = true ∧
    (∀ e, record_request_attempt ⟨some e, o.prune_exc, o.insert_exc⟩ env
      ipGlobal lookup cache now db a = Except.error e) ∧
    (∀ e, record_error_attempt ⟨some e, o2.prune_exc, o2.insert_exc⟩ env
      now2 db2 b = Except.error e) :=
  ⟨rfl, rfl, fun _ => rfl, fun _ => rfl⟩

theorem maybe_prune_last (o : SqlOracle) (env : Env) (now : Nat) (db db1 : DB)
    (h : maybe_prune o env now db = Except.ok db1) :
    db1.last_prune_ts = (if should_prune db now then some (MetaTs.valid now)
      else db.last_prune_ts) := by
  unfold maybe_prune at h
  by_cases hs : should_prune db now = true
  · rw [if_pos hs] at h
    cases hp : o.prune_exc with
    | some e => rw [hp] at h; cases h
    | none =>
      rw [hp] at h
      injection h with h2
      rw [if_pos hs, ← h2]
      rfl
  · rw [if_neg hs] at h
    injection h with h2
    rw [if_neg hs, ← h2]

/-- C6: the prune step is cron-gated.  `_should_prune` holds exactly when
the stored `last_prune_ts` is absent, unparsable, or more than 10 minutes
(600 s) in the past; both recording operations set `last_prune_ts := now`
exactly when they prune (and leave it unchanged otherwise); and when the
stored value is a previous prune time `t1`, a later call prunes only if
more than 10 minutes have elapsed. -/
theorem prune_is_cron_like (db : DB) (now : Nat) :
    (should_prune db now = true ↔
      (db.last_prune_ts = none ∨
       (∃ s, db.last_prune_ts = some (MetaTs.garbage s)) ∨
       (∃ t, db.last_prune_ts = some (MetaTs.valid t) ∧ 600 < now - t))) ∧
    (∀ o env ipGlobal lookup cache a db2,
      record_request_attempt o env ipGlobal lookup cache now db a =
        Except.ok db2 →
      db2.last_prune_ts = (if should_prune db now then some (MetaTs.valid now)
        else db.last_prune_ts)) ∧
    (∀ o env a db2,
      record_error_attempt o env now db a = Except.ok db2 →
      db2.last_prune_ts = (if should_prune db now then some (MetaTs.valid now)
        else db.last_prune_ts)) ∧
    (∀ t1 t2, db.last_prune_ts = some (MetaTs.valid t1) →
      should_prune db t2 = true → t1 + 600 < t2) := by
  refine ⟨?_, ?_, ?_, ?_⟩
  · cases h : db.last_prune_ts with
    | none => simp [should_prune, h]
    | some m =>
      cases m with
      | valid t => simp [should_prune, h]
      | garbage s => simp [should_prune, h]
  · intro o env ipGlobal lookup cache a db2 h
    obtain ⟨oc, op, oi⟩ := o
    simp only [record_request_attempt] at h
    cases oc with
    | some e => simp at h
    | none =>
      simp only [] at h
      cases hm : maybe_prune ⟨none, op, oi⟩ env now db with
      | error e => rw [hm] at h; simp at h
      | ok db1 =>
        rw [hm] at h
        cases oi with
        | some e => simp at h
        | none =>
          simp only [Except.ok.injEq] at h
          rw [← h]
          show db1.last_prune_ts = _
          exact maybe_prune_last _ _ _ _ db1 hm
  · intro o env a db2 h
    obtain ⟨oc, op, oi⟩ := o
    simp only [record_error_attempt] at h
    cases oc with
    | some e => simp at h
    | none =>
      simp only [] at h
      cases hm : maybe_prune ⟨none, op, oi⟩ env now db with
      | error e => rw [hm] at h; simp at h
      | ok db1 =>
        rw [hm] at h
        cases oi with
        | some e => simp at h
        | none =>
          simp only [Except.ok.injEq] at h
          rw [← h]
          show db1.last_prune_ts = _
          exact maybe_prune_last _ _ _ _ db1 hm
  · intro t1 t2 h hs
    simp only [should_prune, h, decide_eq_true_eq] at hs
    omega

/-- Witness for C6: a prune recorded at time 0 allows the next prune at
time 601, which is more than 10 minutes later. -/
theorem prune_is_cron_like_witness :
    should_prune ⟨[], [], some (MetaTs.valid 0), 1, 1⟩ 601 = true ∧
    0 + 600 < 601 :=
  ⟨rfl, (prune_is_cron_like ⟨[], [], some (MetaTs.valid 0), 1, 1⟩ 601).2.2.2
    0 601 rfl rfl⟩

theorem prune_table_spec {α : Type} (idf : α → Nat) (keep : α → Bool)
    (maxRows : Int) (hmax : 0 ≤ maxRows) (rows kept out : List α)
    (hsorted : rows.Pairwise (fun x y => idf x < idf y))
    (hkept : kept = rows.filter keep)
    (hout : out = if maxRows < (kept.length : Int) then
        kept.drop (kept.length - maxRows.toNat) else kept) :
    (∀ r ∈ out, keep r = true) ∧
    ((out.length : Int) ≤ maxRows) ∧
    ∃ dropped, kept = dropped ++ out ∧
      ∀ x ∈ dropped, ∀ y ∈ out, idf x < idf y := by
  have hkeptsorted : kept.Pairwise (fun x y => idf x < idf y) := by
    rw [hkept]
    exact List.Pairwise.sublist (List.filter_sublist rows) hsorted
  by_cases hover : maxRows < (kept.length : Int)
  · have hout2 : out = kept.drop (kept.length - maxRows.toNat) := by
      rw [hout, if_pos hover]
    refine ⟨?_, ?_, kept.take (kept.length - maxRows.toNat), ?_, ?_⟩
    · intro r hr
      have hm : r ∈ kept := by
        rw [hout2] at hr
        exact List.mem_of_mem_drop hr
      rw [hkept] at hm
      exact List.of_mem_filter hm
    · rw [hout2, List.length_drop]
      omega
    · rw [hout2, List.take_append_drop]
    · intro x hx y hy
      have hsplit : kept = kept.take (kept.length - maxRows.toNat) ++
          kept.drop (kept.length - maxRows.toNat) :=
        (List.take_append_drop _ _).symm
      rw [hsplit, List.pairwise_append] at hkeptsorted
      rw [hout2] at hy
      exact hkeptsorted.2.2 x hx y hy
  · have hout2 : out = kept := by rw [hout, if_neg hover]
    refine ⟨?_, ?_, [], by rw [hout2]; rfl, by simp⟩
    · intro r hr
      rw [hout2, hkept] at hr
      exact List.of_mem_filter hr
    · rw [hout2]
      omega

/-- The property claim C5 asserts of one run of the `_prune` step: after it,
no row older than `now` minus the retention window (at least one day)
remains in either log table, each table holds at most `get_max_rows` rows
(at least 1000), and the rows removed by the row-cap are exactly a prefix
of the retention-filtered table, all with smaller ids (oldest first) than
every surviving row. -/
def prune_spec (env : Env) (now : Nat) (db : DB) : Prop :=
  1 ≤ get_retention_days env ∧
  1000 ≤ get_max_rows env ∧
  (∀ r ∈ (prune env now db).request_log,
    ¬((r.ts : Int) < prune_cutoff env now)) ∧
  (∀ r ∈ (prune env now db).error_log,
    ¬((r.ts : Int) < prune_cutoff env now)) ∧
  (((prune env now db).request_log.length : Int) ≤ get_max_rows env) ∧
  (((prune env now db).error_log.length : Int) ≤ get_max_rows env) ∧
  (∃ dropped,
    db.request_log.filter
        (fun r => !decide ((r.ts : Int) < prune_cutoff env now)) =
      dropped ++ (prune env now db).request_log ∧
    ∀ x ∈ dropped, ∀ y ∈ (prune env now db).request_log, x.id < y.id) ∧
  (∃ dropped,
    db.error_log.filter
        (fun r => !decide ((r.ts : Int) < prune_cutoff env now)) =
      dropped ++ (prune env now db).error_log ∧
    ∀ x ∈ dropped, ∀ y ∈ (prune env now db).error_log, x.id < y.id)

/-- C5: `_prune` satisfies `prune_spec` on every database whose log tables
are in ascending id order (as AUTOINCREMENT inserts produce them). -/
theorem prune_spec_holds (env : Env) (now : Nat) (db : DB)
    (hreq : db.request_log.Pairwise (fun x y => x.id < y.id))
    (herr : db.error_log.Pairwise (fun x y => x.id < y.id)) :
    prune_spec env now db := by
  have h1000 : (1000 : Int) ≤ get_max_rows env := le_max_left _ _
  have hmax : (0 : Int) ≤ get_max_rows env := by omega
  obtain ⟨hr1, hr2, hr3⟩ := prune_table_spec RequestRow.id
    (fun r => !decide ((r.ts : Int) < prune_cutoff env now))
    (get_max_rows env) hmax db.request_log
    (db.request_log.filter
      (fun r => !decide ((r.ts : Int) < prune_cutoff env now)))
    (prune env now db).request_log hreq rfl rfl
  obtain ⟨he1, he2, he3⟩ := prune_table_spec ErrorRow.id
    (fun r => !decide ((r.ts : Int) < prune_cutoff env now))
    (get_max_rows env) hmax db.error_log
    (db.error_log.filter
      (fun r => !decide ((r.ts : Int) < prune_cutoff env now)))
    (prune env now db).error_log herr rfl rfl
  refine ⟨le_max_left _ _, h1000, ?_, ?_, hr2, he2, hr3, he3⟩
  · intro r hr
    simpa using hr1 r hr
  · intro r hr
    simpa using he1 r hr

/-- A concrete environment with no analytics variables set. -/
def c5_env : Env := ⟨none, none, none, none⟩

/-- A concrete old request row (timestamp 0). -/
def c5_row1 : RequestRow :=
  { id := 1, ts := 0, request_id := none, user_id := none, method := "GET",
    path := "/", status_code := 200, duration_ms := 1, client_ip := none,
    country := none, country_code := none, region := none, city := none,
    latitude := none, longitude := none, user_agent := none,
    browser := "unknown", referer := none }

/-- A concrete recent request row (timestamp 1000000). -/
def c5_row2 : RequestRow :=
  { c5_row1 with id := 2, ts := 1000000 }

/-- A concrete database with two request rows in ascending id order. -/
def c5_db : DB := ⟨[c5_row1, c5_row2], [], none, 3, 1⟩

/-- Witness for C5 on the concrete database `c5_db` at time 1000000. -/
theorem prune_spec_holds_witness :
    c5_db.request_log.Pairwise (fun x y => x.id < y.id) ∧
    c5_db.error_log.Pairwise (fun x y => x.id < y.id) ∧
    prune_spec c5_env 1000000 c5_db :=
  ⟨by decide, by decide,
    prune_spec_holds c5_env 1000000 c5_db (by decide) (by decide)⟩
